import Mathlib

/-!
Shallow embedding of the marketplace ledger contract
(src/hardhat/contracts/Marketplace.sol) and proofs of its specified
properties.

Modelling conventions:
- Addresses and wei amounts are `Nat`; the zero address is `0`.
- The storage mapping `marketItemIdToMarketItem` is a total function
  `Nat → MarketItem` whose default value is the all-zero struct, exactly as
  EVM storage behaves.
- A reverting call is `Except.error`; since an error result carries no new
  state, a revert leaves the ledger state unchanged, as on chain.
- Calls into external collaborators (ERC721 `transferFrom`, ETH `transfer`)
  are recorded as a list of `ExternalCall` effects in the order the contract
  issues them.  The creator lookup `NFT.getTokenCreatorById` and the ERC721
  transfer inside `createMarketItem` are parameters of the embedding, since
  their results flow into the stored record / can abort the listing.
-/

namespace Marketplace

/-- One row of the `marketItemIdToMarketItem` storage mapping, mirroring the
`MarketItem` struct of the contract field for field. -/
structure MarketItem where
  marketItemId : Nat
  nftContractAddress : Nat
  tokenId : Nat
  creator : Nat
  seller : Nat
  owner : Nat
  price : Nat
  sold : Bool
  canceled : Bool
deriving DecidableEq, Repr

/-- The default (all-zero) struct, i.e. the value of an untouched mapping
slot, and also the `emptyMarketItem` returned by
`getLatestMarketItemByTokenId` on a miss. -/
def emptyMarketItem : MarketItem :=
  ⟨0, 0, 0, 0, 0, 0, 0, false, false⟩

/-- The contract storage: the three counters, the items mapping, the
immutable fee beneficiary `owner` (the deployer) and the listing fee. -/
structure MarketplaceState where
  marketItemIdCounter : Nat
  tokensSoldCounter : Nat
  tokensCanceledCounter : Nat
  marketItemIdToMarketItem : Nat → MarketItem
  owner : Nat
  listingFee : Nat

/-- State right after the constructor ran with `msg.sender = sender`:
all counters zero, empty mapping, fee = 0.045 ether in wei. -/
def initialState (sender : Nat) : MarketplaceState :=
  { marketItemIdCounter := 0
    tokensSoldCounter := 0
    tokensCanceledCounter := 0
    marketItemIdToMarketItem := fun _ => emptyMarketItem
    owner := sender
    listingFee := 45000000000000000 }

/-- External calls the contract issues, in order.
`nftTransferToMarket c t a` is `IERC721(c).transferFrom(a, address(this), t)`;
`nftTransferFromMarket c t a` is `IERC721(c).transferFrom(address(this), a, t)`;
`ethTransfer a v` is `payable(a).transfer(v)`. -/
inductive ExternalCall where
  | ethTransfer (recipient amount : Nat)
  | nftTransferToMarket (nftContractAddress tokenId src : Nat)
  | nftTransferFromMarket (nftContractAddress tokenId recipient : Nat)
deriving DecidableEq, Repr

/-- Source function `getListingFee`. -/
def getListingFee (s : MarketplaceState) : Nat :=
  s.listingFee

/-- Source function `createMarketItem(nftContractAddress, tokenId, price)` called by `caller`
with `msg.value = msgValue`.  `creatorLookup` is the result of the external
call `NFT(nftContractAddress).getTokenCreatorById(tokenId)` (`none` models a
revert of that call), and `nftTransferOk` tells whether the collection
accepts the custody transfer; either external failure reverts the whole
call.  On success it returns the new state, the fresh id and the issued
external calls. -/
def createMarketItem (s : MarketplaceState)
    (caller msgValue nftContractAddress tokenId price : Nat)
    (creatorLookup : Option Nat) (nftTransferOk : Bool) :
    Except String (MarketplaceState × Nat × List ExternalCall) :=
  if price = 0 then Except.error "Price must be at least 1 wei"
  else if msgValue ≠ s.listingFee then Except.error "Price must be equal to listing price"
  else
    match creatorLookup with
    | none => Except.error "getTokenCreatorById reverted"
    | some creator =>
      if nftTransferOk = false then Except.error "ERC721 transferFrom reverted"
      else
        let marketItemId := s.marketItemIdCounter + 1
        let item : MarketItem :=
          ⟨marketItemId, nftContractAddress, tokenId, creator, caller, 0, price, false, false⟩
        Except.ok
          ({ s with
              marketItemIdCounter := marketItemId
              marketItemIdToMarketItem :=
                Function.update s.marketItemIdToMarketItem marketItemId item },
           marketItemId,
           [ExternalCall.nftTransferToMarket nftContractAddress tokenId caller])

/-- Source function `cancelMarketItem(nftContractAddress, marketItemId)` called by `caller`.
Existence is probed by the stored `tokenId` being non-zero, exactly as in
the source. -/
def cancelMarketItem (s : MarketplaceState)
    (caller nftContractAddress marketItemId : Nat) :
    Except String (MarketplaceState × List ExternalCall) :=
  let tokenId := (s.marketItemIdToMarketItem marketItemId).tokenId
  if tokenId = 0 then Except.error "Market item has to exist"
  else if (s.marketItemIdToMarketItem marketItemId).seller ≠ caller then
    Except.error "You are not the seller"
  else
    let item := s.marketItemIdToMarketItem marketItemId
    Except.ok
      ({ s with
          marketItemIdToMarketItem :=
            Function.update s.marketItemIdToMarketItem marketItemId
              { item with owner := caller, canceled := true }
          tokensCanceledCounter := s.tokensCanceledCounter + 1 },
       [ExternalCall.nftTransferFromMarket nftContractAddress tokenId caller])

/-- Source function `createMarketSale(nftContractAddress, marketItemId)` called by `caller`
with `msg.value = msgValue`.  The only check the contract makes is
`msg.value == price`; the seller payment, the token hand-over and the fee
forwarding are recorded as external calls in source order. -/
def createMarketSale (s : MarketplaceState)
    (caller msgValue nftContractAddress marketItemId : Nat) :
    Except String (MarketplaceState × List ExternalCall) :=
  let price := (s.marketItemIdToMarketItem marketItemId).price
  let tokenId := (s.marketItemIdToMarketItem marketItemId).tokenId
  if msgValue ≠ price then
    Except.error "Please submit the asking price in order to continue"
  else
    let item := s.marketItemIdToMarketItem marketItemId
    Except.ok
      ({ s with
          marketItemIdToMarketItem :=
            Function.update s.marketItemIdToMarketItem marketItemId
              { item with owner := caller, sold := true }
          tokensSoldCounter := s.tokensSoldCounter + 1 },
       [ExternalCall.ethTransfer item.seller msgValue,
        ExternalCall.nftTransferFromMarket nftContractAddress tokenId caller,
        ExternalCall.ethTransfer s.owner s.listingFee])

/-- The mapping slots `items 1, …, items n` in ascending order: the list of
rows a `for (i = 0; i < n; i++) … marketItemIdToMarketItem[i + 1]` loop
visits. -/
def scanRange (items : Nat → MarketItem) (n : Nat) : List MarketItem :=
  (List.range n).map fun i => items (i + 1)

/-- All table rows of state `s` in ascending id order. -/
def marketItemsList (s : MarketplaceState) : List MarketItem :=
  scanRange s.marketItemIdToMarketItem s.marketItemIdCounter

/-- Source function `fetchAvailableMarketItems()`.  The source allocates a fixed array of
size `counter - sold - canceled` and fills it with the zero-owner rows:
`none` models a revert, either of the unsigned subtraction underflowing or
of the fill index running past the end of the array; when fewer rows match
than the allocated size, the tail keeps the default structs. -/
def fetchAvailableMarketItems (s : MarketplaceState) : Option (List MarketItem) :=
  if s.marketItemIdCounter < s.tokensSoldCounter + s.tokensCanceledCounter then none
  else
    let availableItemsCount :=
      s.marketItemIdCounter - s.tokensSoldCounter - s.tokensCanceledCounter
    let matched := (marketItemsList s).filter fun item => item.owner == 0
    if availableItemsCount < matched.length then none
    else some (matched ++ List.replicate (availableItemsCount - matched.length) emptyMarketItem)

/-- The descending scan of `getLatestMarketItemByTokenId`: probes
`items n, items (n-1), …, items 1` and returns the first row whose
`tokenId` matches, with a found flag. -/
def latestScan (items : Nat → MarketItem) (tokenId : Nat) : Nat → MarketItem × Bool
  | 0 => (emptyMarketItem, false)
  | n + 1 =>
    if (items (n + 1)).tokenId = tokenId then (items (n + 1), true)
    else latestScan items tokenId n

/-- Source function `getLatestMarketItemByTokenId(tokenId)`. -/
def getLatestMarketItemByTokenId (s : MarketplaceState) (tokenId : Nat) :
    MarketItem × Bool :=
  latestScan s.marketItemIdToMarketItem tokenId s.marketItemIdCounter

/-- Source function `compareStrings`: keccak equality of the packed encodings of two strings
is equality of the strings. -/
def compareStrings (a b : String) : Bool :=
  a == b

/-- Source function `getMarketItemAddressByProperty(item, property)`: requires the property
to be "seller" or "owner" and returns that field. -/
def getMarketItemAddressByProperty (item : MarketItem) (property : String) :
    Except String Nat :=
  if compareStrings property "seller" || compareStrings property "owner" then
    Except.ok (if compareStrings property "seller" then item.seller else item.owner)
  else Except.error "Parameter must be seller or owner"

/-- Source function `fetchMarketItemsByAddressProperty(_addressProperty)` called by `caller`:
validates the property string, then makes a first counting pass over the
whole table, allocates an array of exactly that size and fills it in a
second pass.  As in `fetchAvailableMarketItems`, a fill index past the
array end is a revert and a short fill leaves default structs behind. -/
def fetchMarketItemsByAddressProperty (s : MarketplaceState) (caller : Nat)
    (addressProperty : String) : Except String (List MarketItem) :=
  if ¬(compareStrings addressProperty "seller" || compareStrings addressProperty "owner") then
    Except.error "Parameter must be seller or owner"
  else
    let propValue : MarketItem → Nat := fun item =>
      if compareStrings addressProperty "seller" then item.seller else item.owner
    let itemCount := (marketItemsList s).countP fun item => propValue item == caller
    let matched := (marketItemsList s).filter fun item => propValue item == caller
    if itemCount < matched.length then Except.error "array index out of bounds"
    else Except.ok (matched ++ List.replicate (itemCount - matched.length) emptyMarketItem)

/-- Source function `fetchSellingMarketItems()`. -/
def fetchSellingMarketItems (s : MarketplaceState) (caller : Nat) :
    Except String (List MarketItem) :=
  fetchMarketItemsByAddressProperty s caller "seller"

/-- Source function `fetchOwnedMarketItems()`. -/
def fetchOwnedMarketItems (s : MarketplaceState) (caller : Nat) :
    Except String (List MarketItem) :=
  fetchMarketItemsByAddressProperty s caller "owner"

/-- A valid operation in the sense of the specification: a successful
contract call from a non-zero sender, where a sale or a cancellation is
only performed on an existing item that is not yet sold or canceled (each
item is sold or canceled at most once). -/
inductive ValidStep : MarketplaceState → MarketplaceState → Prop
  | create {s s' : MarketplaceState}
      (caller nftContractAddress tokenId price creator ret : Nat)
      (calls : List ExternalCall)
      (hcaller : caller ≠ 0)
      (h : createMarketItem s caller s.listingFee nftContractAddress tokenId price
            (some creator) true = Except.ok (s', ret, calls)) :
      ValidStep s s'
  | sale {s s' : MarketplaceState}
      (caller msgValue nftContractAddress marketItemId : Nat)
      (calls : List ExternalCall)
      (hcaller : caller ≠ 0)
      (hlo : 1 ≤ marketItemId) (hhi : marketItemId ≤ s.marketItemIdCounter)
      (hsold : (s.marketItemIdToMarketItem marketItemId).sold = false)
      (hcanceled : (s.marketItemIdToMarketItem marketItemId).canceled = false)
      (h : createMarketSale s caller msgValue nftContractAddress marketItemId
            = Except.ok (s', calls)) :
      ValidStep s s'
  | cancel {s s' : MarketplaceState}
      (caller nftContractAddress marketItemId : Nat)
      (calls : List ExternalCall)
      (hcaller : caller ≠ 0)
      (hlo : 1 ≤ marketItemId) (hhi : marketItemId ≤ s.marketItemIdCounter)
      (hsold : (s.marketItemIdToMarketItem marketItemId).sold = false)
      (hcanceled : (s.marketItemIdToMarketItem marketItemId).canceled = false)
      (h : cancelMarketItem s caller nftContractAddress marketItemId
            = Except.ok (s', calls)) :
      ValidStep s s'

/-- States reachable from a fresh deployment by `sender` through valid
operations. -/
def Reachable (sender : Nat) (s : MarketplaceState) : Prop :=
  Relation.ReflTransGen ValidStep (initialState sender) s

/-! Concrete sample states used to instantiate the theorems. -/

/-- A deployment by address 7 holding one active listing: item 1, collection
2, token 3, creator 4, seller 5, price 100. -/
def listedState : MarketplaceState :=
  { marketItemIdCounter := 1
    tokensSoldCounter := 0
    tokensCanceledCounter := 0
    marketItemIdToMarketItem :=
      Function.update (fun _ => emptyMarketItem) 1 ⟨1, 2, 3, 4, 5, 0, 100, false, false⟩
    owner := 7
    listingFee := 45000000000000000 }

/-- Like `listedState` but after item 1 was bought by address 6. -/
def soldState : MarketplaceState :=
  { marketItemIdCounter := 1
    tokensSoldCounter := 1
    tokensCanceledCounter := 0
    marketItemIdToMarketItem :=
      Function.update (fun _ => emptyMarketItem) 1 ⟨1, 2, 3, 4, 5, 6, 100, true, false⟩
    owner := 7
    listingFee := 45000000000000000 }

/-! The state invariant maintained by every valid operation. -/

/-- Well-formedness of a ledger state: slots outside `1 … counter` are
untouched, each row in range records its own id, a non-zero seller and a
positive price, the zero-owner test characterizes the non-terminal rows,
no row is both sold and canceled, and the two terminal counters agree with
the flag counts over the table. -/
structure Inv (s : MarketplaceState) : Prop where
  zero_empty : s.marketItemIdToMarketItem 0 = emptyMarketItem
  out_empty : ∀ i, s.marketItemIdCounter < i → s.marketItemIdToMarketItem i = emptyMarketItem
  id_eq : ∀ i, 1 ≤ i → i ≤ s.marketItemIdCounter →
    (s.marketItemIdToMarketItem i).marketItemId = i
  seller_ne : ∀ i, 1 ≤ i → i ≤ s.marketItemIdCounter →
    (s.marketItemIdToMarketItem i).seller ≠ 0
  price_pos : ∀ i, 1 ≤ i → i ≤ s.marketItemIdCounter →
    0 < (s.marketItemIdToMarketItem i).price
  owner_flags : ∀ i, 1 ≤ i → i ≤ s.marketItemIdCounter →
    ((s.marketItemIdToMarketItem i).owner = 0 ↔
      ((s.marketItemIdToMarketItem i).sold = false ∧
        (s.marketItemIdToMarketItem i).canceled = false))
  not_both : ∀ i, 1 ≤ i → i ≤ s.marketItemIdCounter →
    ¬((s.marketItemIdToMarketItem i).sold = true ∧
        (s.marketItemIdToMarketItem i).canceled = true)
  sold_eq : s.tokensSoldCounter = (marketItemsList s).countP fun it => it.sold
  canceled_eq : s.tokensCanceledCounter = (marketItemsList s).countP fun it => it.canceled

/-- The state `listedState` is reachable: one valid `createMarketItem` call by 5 from
a fresh deployment. -/
theorem reachable_listedState : Reachable 7 listedState :=
  Relation.ReflTransGen.single
    (ValidStep.create 5 2 3 100 4 1
      [ExternalCall.nftTransferToMarket 2 3 5] (by decide) (by rfl))

/-! Characterizations of the three mutating calls. -/

/-- Inversion of a successful `createMarketItem` call. -/
theorem createMarketItem_ok {s s' : MarketplaceState}
    {caller msgValue nftContractAddress tokenId price ret : Nat}
    {creatorLookup : Option Nat} {nftTransferOk : Bool} {calls : List ExternalCall}
    (h : createMarketItem s caller msgValue nftContractAddress tokenId price
          creatorLookup nftTransferOk = Except.ok (s', ret, calls)) :
    price ≠ 0 ∧ msgValue = s.listingFee ∧
    ∃ creator, creatorLookup = some creator ∧ nftTransferOk = true ∧
      ret = s.marketItemIdCounter + 1 ∧
      s' = { s with
              marketItemIdCounter := s.marketItemIdCounter + 1
              marketItemIdToMarketItem :=
                Function.update s.marketItemIdToMarketItem (s.marketItemIdCounter + 1)
                  ⟨s.marketItemIdCounter + 1, nftContractAddress, tokenId, creator, caller, 0,
                   price, false, false⟩ } ∧
      calls = [ExternalCall.nftTransferToMarket nftContractAddress tokenId caller] := by
  by_cases h0 : price = 0
  · simp [createMarketItem, h0] at h
  · by_cases h1 : msgValue = s.listingFee
    · subst h1
      cases creatorLookup with
      | none => simp [createMarketItem, h0] at h
      | some creator =>
        cases nftTransferOk with
        | false => simp [createMarketItem, h0] at h
        | true =>
          simp [createMarketItem, h0] at h
          exact ⟨h0, rfl, creator, rfl, rfl, h.2.1.symm, h.1.symm, h.2.2.symm⟩
    · simp [createMarketItem, h0, h1] at h

/-- A `createMarketItem` call with positive price, payment equal to the fee
and cooperating collection succeeds, with the stated new state, fresh id
and custody transfer. -/
theorem createMarketItem_eq_ok (s : MarketplaceState)
    (caller nftContractAddress tokenId price creator : Nat) (hprice : price ≠ 0) :
    createMarketItem s caller s.listingFee nftContractAddress tokenId price
        (some creator) true =
      Except.ok
        ({ s with
            marketItemIdCounter := s.marketItemIdCounter + 1
            marketItemIdToMarketItem :=
              Function.update s.marketItemIdToMarketItem (s.marketItemIdCounter + 1)
                ⟨s.marketItemIdCounter + 1, nftContractAddress, tokenId, creator, caller, 0,
                 price, false, false⟩ },
         s.marketItemIdCounter + 1,
         [ExternalCall.nftTransferToMarket nftContractAddress tokenId caller]) := by
  simp [createMarketItem, hprice]

/-- Inversion of a successful `createMarketSale` call. -/
theorem createMarketSale_ok {s s' : MarketplaceState}
    {caller msgValue nftContractAddress marketItemId : Nat} {calls : List ExternalCall}
    (h : createMarketSale s caller msgValue nftContractAddress marketItemId
          = Except.ok (s', calls)) :
    msgValue = (s.marketItemIdToMarketItem marketItemId).price ∧
    s' = { s with
            marketItemIdToMarketItem :=
              Function.update s.marketItemIdToMarketItem marketItemId
                { s.marketItemIdToMarketItem marketItemId with owner := caller, sold := true }
            tokensSoldCounter := s.tokensSoldCounter + 1 } ∧
    calls = [ExternalCall.ethTransfer (s.marketItemIdToMarketItem marketItemId).seller msgValue,
             ExternalCall.nftTransferFromMarket nftContractAddress
               (s.marketItemIdToMarketItem marketItemId).tokenId caller,
             ExternalCall.ethTransfer s.owner s.listingFee] := by
  by_cases hv : msgValue = (s.marketItemIdToMarketItem marketItemId).price
  · subst hv
    simp [createMarketSale] at h
    exact ⟨rfl, h.1.symm, h.2.symm⟩
  · simp [createMarketSale, hv] at h

/-- A `createMarketSale` call whose payment equals the stored price succeeds
with the stated new state, payments and custody transfer. -/
theorem createMarketSale_eq_ok (s : MarketplaceState)
    (caller msgValue nftContractAddress marketItemId : Nat)
    (hv : msgValue = (s.marketItemIdToMarketItem marketItemId).price) :
    createMarketSale s caller msgValue nftContractAddress marketItemId =
      Except.ok
        ({ s with
            marketItemIdToMarketItem :=
              Function.update s.marketItemIdToMarketItem marketItemId
                { s.marketItemIdToMarketItem marketItemId with owner := caller, sold := true }
            tokensSoldCounter := s.tokensSoldCounter + 1 },
         [ExternalCall.ethTransfer (s.marketItemIdToMarketItem marketItemId).seller msgValue,
          ExternalCall.nftTransferFromMarket nftContractAddress
            (s.marketItemIdToMarketItem marketItemId).tokenId caller,
          ExternalCall.ethTransfer s.owner s.listingFee]) := by
  simp [createMarketSale, hv]

/-- A `createMarketSale` call reverts exactly when the payment is not the
stored price. -/
theorem createMarketSale_error_iff (s : MarketplaceState)
    (caller msgValue nftContractAddress marketItemId : Nat) :
    (∃ e, createMarketSale s caller msgValue nftContractAddress marketItemId
            = Except.error e)
      ↔ msgValue ≠ (s.marketItemIdToMarketItem marketItemId).price := by
  by_cases hv : msgValue = (s.marketItemIdToMarketItem marketItemId).price <;>
    simp [createMarketSale, hv]

/-- Inversion of a successful `cancelMarketItem` call. -/
theorem cancelMarketItem_ok {s s' : MarketplaceState}
    {caller nftContractAddress marketItemId : Nat} {calls : List ExternalCall}
    (h : cancelMarketItem s caller nftContractAddress marketItemId
          = Except.ok (s', calls)) :
    (s.marketItemIdToMarketItem marketItemId).tokenId ≠ 0 ∧
    (s.marketItemIdToMarketItem marketItemId).seller = caller ∧
    s' = { s with
            marketItemIdToMarketItem :=
              Function.update s.marketItemIdToMarketItem marketItemId
                { s.marketItemIdToMarketItem marketItemId with
                    owner := caller, canceled := true }
            tokensCanceledCounter := s.tokensCanceledCounter + 1 } ∧
    calls = [ExternalCall.nftTransferFromMarket nftContractAddress
              (s.marketItemIdToMarketItem marketItemId).tokenId caller] := by
  by_cases h0 : (s.marketItemIdToMarketItem marketItemId).tokenId = 0
  · simp [cancelMarketItem, h0] at h
  · by_cases h1 : (s.marketItemIdToMarketItem marketItemId).seller = caller
    · subst h1
      simp [cancelMarketItem, h0] at h
      exact ⟨h0, rfl, h.1.symm, h.2.symm⟩
    · simp [cancelMarketItem, h0, h1] at h

/-- A `cancelMarketItem` call on an existing item by its seller succeeds
with the stated new state and custody return. -/
theorem cancelMarketItem_eq_ok (s : MarketplaceState)
    (caller nftContractAddress marketItemId : Nat)
    (h0 : (s.marketItemIdToMarketItem marketItemId).tokenId ≠ 0)
    (h1 : (s.marketItemIdToMarketItem marketItemId).seller = caller) :
    cancelMarketItem s caller nftContractAddress marketItemId =
      Except.ok
        ({ s with
            marketItemIdToMarketItem :=
              Function.update s.marketItemIdToMarketItem marketItemId
                { s.marketItemIdToMarketItem marketItemId with
                    owner := caller, canceled := true }
            tokensCanceledCounter := s.tokensCanceledCounter + 1 },
         [ExternalCall.nftTransferFromMarket nftContractAddress
            (s.marketItemIdToMarketItem marketItemId).tokenId caller]) := by
  simp [cancelMarketItem, h0, h1]

/-! List-level facts about the ascending table scan. -/

theorem scanRange_succ (f : Nat → MarketItem) (n : Nat) :
    scanRange f (n + 1) = scanRange f n ++ [f (n + 1)] := by
  simp [scanRange, List.range_succ]

theorem length_scanRange (f : Nat → MarketItem) (n : Nat) :
    (scanRange f n).length = n := by
  simp [scanRange]

theorem scanRange_update_of_lt (f : Nat → MarketItem) (x : MarketItem) {k n : Nat}
    (h : n < k) : scanRange (Function.update f k x) n = scanRange f n := by
  refine List.map_congr_left ?_
  intro i hi
  have hik : i + 1 ≠ k := by
    have := List.mem_range.mp hi
    omega
  exact Function.update_noteq hik x f

theorem mem_scanRange {f : Nat → MarketItem} {n : Nat} {it : MarketItem} :
    it ∈ scanRange f n ↔ ∃ i, 1 ≤ i ∧ i ≤ n ∧ f i = it := by
  simp only [scanRange, List.mem_map, List.mem_range]
  constructor
  · rintro ⟨i, hi, rfl⟩
    exact ⟨i + 1, by omega, by omega, rfl⟩
  · rintro ⟨i, h1, h2, rfl⟩
    refine ⟨i - 1, by omega, ?_⟩
    have hi : i - 1 + 1 = i := by omega
    rw [hi]

theorem countP_scanRange_update (p : MarketItem → Bool) (f : Nat → MarketItem)
    (x : MarketItem) {k n : Nat} (hk1 : 1 ≤ k) (hk2 : k ≤ n) :
    (scanRange (Function.update f k x) n).countP p + (if p (f k) then 1 else 0)
      = (scanRange f n).countP p + (if p x then 1 else 0) := by
  induction n with
  | zero => omega
  | succ n ih =>
    rw [scanRange_succ, scanRange_succ, List.countP_append, List.countP_append]
    by_cases hkn : k = n + 1
    · subst hkn
      rw [scanRange_update_of_lt f x (Nat.lt_succ_self n), Function.update_same]
      simp only [List.countP_cons, List.countP_nil]
      split_ifs <;> omega
    · have hne : n + 1 ≠ k := fun hc => hkn hc.symm
      rw [Function.update_noteq hne]
      have h2 := ih (by omega)
      simp only [List.countP_cons, List.countP_nil]
      split_ifs at h2 ⊢ <;> omega

/-- Counting a disjoint three-way split of the table rows: rows are either
zero-owner, sold, or canceled, and the latter two are disjoint. -/
theorem countP_avail (l : List MarketItem)
    (h1 : ∀ it ∈ l, (it.owner = 0 ↔ (it.sold = false ∧ it.canceled = false)))
    (h2 : ∀ it ∈ l, ¬(it.sold = true ∧ it.canceled = true)) :
    (l.countP fun it => it.owner == 0)
        + ((l.countP fun it => it.sold) + (l.countP fun it => it.canceled))
      = l.length := by
  induction l with
  | nil => simp
  | cons a l ih =>
    have ha1 := h1 a (List.mem_cons_self a l)
    have ha2 := h2 a (List.mem_cons_self a l)
    have ih2 := ih (fun it hit => h1 it (List.mem_cons_of_mem a hit))
      (fun it hit => h2 it (List.mem_cons_of_mem a hit))
    simp only [List.countP_cons, List.length_cons]
    cases hs : a.sold <;> cases hc : a.canceled
    · have ho : a.owner = 0 := ha1.mpr ⟨hs, hc⟩
      simp only [hs, hc, ho]
      split_ifs <;> simp_all <;> omega
    · have ho : a.owner ≠ 0 := by
        intro hh
        have := ha1.mp hh
        simp [hc] at this
      simp only [hs, hc]
      split_ifs <;> simp_all <;> omega
    · have ho : a.owner ≠ 0 := by
        intro hh
        have := ha1.mp hh
        simp [hs] at this
      simp only [hs, hc]
      split_ifs <;> simp_all <;> omega
    · exact absurd ⟨hs, hc⟩ ha2

/-- Membership in the table-row list. -/
theorem mem_marketItemsList {s : MarketplaceState} {it : MarketItem} :
    it ∈ marketItemsList s
      ↔ ∃ i, 1 ≤ i ∧ i ≤ s.marketItemIdCounter ∧ s.marketItemIdToMarketItem i = it :=
  mem_scanRange

theorem inv_initial (sender : Nat) : Inv (initialState sender) := by
  refine ⟨rfl, fun i _ => rfl, ?_, ?_, ?_, ?_, ?_, ?_, ?_⟩
  all_goals
    first
      | (intro i h1 h2; simp only [initialState] at h2; omega)
      | simp [marketItemsList, scanRange, initialState]

/-- Every valid operation preserves the invariant. -/
theorem inv_step {s s' : MarketplaceState} (hInv : Inv s) (hstep : ValidStep s s') :
    Inv s' := by
  cases hstep with
  | create caller nft tokenId price creator ret calls hcaller h =>
    obtain ⟨h0, -, creator2, -, -, -, hs', -⟩ := createMarketItem_ok h
    subst hs'
    refine ⟨?_, ?_, ?_, ?_, ?_, ?_, ?_, ?_, ?_⟩
    · dsimp only
      rw [Function.update_noteq (by omega)]
      exact hInv.zero_empty
    · intro i hi
      dsimp only at hi ⊢
      rw [Function.update_noteq (by omega)]
      exact hInv.out_empty i (by omega)
    · intro i h1 h2
      dsimp only at h2 ⊢
      by_cases hik : i = s.marketItemIdCounter + 1
      · subst hik
        rw [Function.update_same]
      · rw [Function.update_noteq hik]
        exact hInv.id_eq i h1 (by omega)
    · intro i h1 h2
      dsimp only at h2 ⊢
      by_cases hik : i = s.marketItemIdCounter + 1
      · subst hik
        rw [Function.update_same]
        exact hcaller
      · rw [Function.update_noteq hik]
        exact hInv.seller_ne i h1 (by omega)
    · intro i h1 h2
      dsimp only at h2 ⊢
      by_cases hik : i = s.marketItemIdCounter + 1
      · subst hik
        rw [Function.update_same]
        dsimp only
        omega
      · rw [Function.update_noteq hik]
        exact hInv.price_pos i h1 (by omega)
    · intro i h1 h2
      dsimp only at h2 ⊢
      by_cases hik : i = s.marketItemIdCounter + 1
      · subst hik
        rw [Function.update_same]
        simp
      · rw [Function.update_noteq hik]
        exact hInv.owner_flags i h1 (by omega)
    · intro i h1 h2
      dsimp only at h2 ⊢
      by_cases hik : i = s.marketItemIdCounter + 1
      · subst hik
        rw [Function.update_same]
        simp
      · rw [Function.update_noteq hik]
        exact hInv.not_both i h1 (by omega)
    · show s.tokensSoldCounter = _
      dsimp only [marketItemsList]
      rw [scanRange_succ, scanRange_update_of_lt _ _ (Nat.lt_succ_self _),
        Function.update_same, List.countP_append]
      rw [hInv.sold_eq]
      dsimp only [marketItemsList]
      simp
    · show s.tokensCanceledCounter = _
      dsimp only [marketItemsList]
      rw [scanRange_succ, scanRange_update_of_lt _ _ (Nat.lt_succ_self _),
        Function.update_same, List.countP_append]
      rw [hInv.canceled_eq]
      dsimp only [marketItemsList]
      simp
  | sale caller msgValue nft mid calls hcaller hlo hhi hsold hcanceled h =>
    obtain ⟨hv, hs', -⟩ := createMarketSale_ok h
    subst hs'
    refine ⟨?_, ?_, ?_, ?_, ?_, ?_, ?_, ?_, ?_⟩
    · dsimp only
      rw [Function.update_noteq (by omega)]
      exact hInv.zero_empty
    · intro i hi
      dsimp only at hi ⊢
      rw [Function.update_noteq (by omega)]
      exact hInv.out_empty i (by omega)
    · intro i h1 h2
      dsimp only at h2 ⊢
      by_cases hik : i = mid
      · subst hik
        rw [Function.update_same]
        exact hInv.id_eq _ hlo hhi
      · rw [Function.update_noteq hik]
        exact hInv.id_eq i h1 h2
    · intro i h1 h2
      dsimp only at h2 ⊢
      by_cases hik : i = mid
      · subst hik
        rw [Function.update_same]
        exact hInv.seller_ne _ hlo hhi
      · rw [Function.update_noteq hik]
        exact hInv.seller_ne i h1 h2
    · intro i h1 h2
      dsimp only at h2 ⊢
      by_cases hik : i = mid
      · subst hik
        rw [Function.update_same]
        exact hInv.price_pos _ hlo hhi
      · rw [Function.update_noteq hik]
        exact hInv.price_pos i h1 h2
    · intro i h1 h2
      dsimp only at h2 ⊢
      by_cases hik : i = mid
      · subst hik
        rw [Function.update_same]
        simp [hcaller]
      · rw [Function.update_noteq hik]
        exact hInv.owner_flags i h1 h2
    · intro i h1 h2
      dsimp only at h2 ⊢
      by_cases hik : i = mid
      · subst hik
        rw [Function.update_same]
        simp [hcanceled]
      · rw [Function.update_noteq hik]
        exact hInv.not_both i h1 h2
    · show s.tokensSoldCounter + 1 = _
      dsimp only [marketItemsList]
      have hcount := countP_scanRange_update (fun it => it.sold)
        s.marketItemIdToMarketItem
        { s.marketItemIdToMarketItem mid with owner := caller, sold := true } hlo hhi
      simp [hsold] at hcount
      rw [hInv.sold_eq]
      dsimp only [marketItemsList]
      omega
    · show s.tokensCanceledCounter = _
      dsimp only [marketItemsList]
      have hcount := countP_scanRange_update (fun it => it.canceled)
        s.marketItemIdToMarketItem
        { s.marketItemIdToMarketItem mid with owner := caller, sold := true } hlo hhi
      simp [hcanceled] at hcount
      rw [hInv.canceled_eq]
      dsimp only [marketItemsList]
      simp only [hcanceled]
      omega
  | cancel caller nft mid calls hcaller hlo hhi hsold hcanceled h =>
    obtain ⟨-, hseller, hs', -⟩ := cancelMarketItem_ok h
    subst hs'
    refine ⟨?_, ?_, ?_, ?_, ?_, ?_, ?_, ?_, ?_⟩
    · dsimp only
      rw [Function.update_noteq (by omega)]
      exact hInv.zero_empty
    · intro i hi
      dsimp only at hi ⊢
      rw [Function.update_noteq (by omega)]
      exact hInv.out_empty i (by omega)
    · intro i h1 h2
      dsimp only at h2 ⊢
      by_cases hik : i = mid
      · subst hik
        rw [Function.update_same]
        exact hInv.id_eq _ hlo hhi
      · rw [Function.update_noteq hik]
        exact hInv.id_eq i h1 h2
    · intro i h1 h2
      dsimp only at h2 ⊢
      by_cases hik : i = mid
      · subst hik
        rw [Function.update_same]
        exact hInv.seller_ne _ hlo hhi
      · rw [Function.update_noteq hik]
        exact hInv.seller_ne i h1 h2
    · intro i h1 h2
      dsimp only at h2 ⊢
      by_cases hik : i = mid
      · subst hik
        rw [Function.update_same]
        exact hInv.price_pos _ hlo hhi
      · rw [Function.update_noteq hik]
        exact hInv.price_pos i h1 h2
    · intro i h1 h2
      dsimp only at h2 ⊢
      by_cases hik : i = mid
      · subst hik
        rw [Function.update_same]
        simp [hcaller]
      · rw [Function.update_noteq hik]
        exact hInv.owner_flags i h1 h2
    · intro i h1 h2
      dsimp only at h2 ⊢
      by_cases hik : i = mid
      · subst hik
        rw [Function.update_same]
        simp [hsold]
      · rw [Function.update_noteq hik]
        exact hInv.not_both i h1 h2
    · show s.tokensSoldCounter = _
      dsimp only [marketItemsList]
      have hcount := countP_scanRange_update (fun it => it.sold)
        s.marketItemIdToMarketItem
        { s.marketItemIdToMarketItem mid with owner := caller, canceled := true } hlo hhi
      simp [hsold] at hcount
      rw [hInv.sold_eq]
      dsimp only [marketItemsList]
      simp only [hsold]
      omega
    · show s.tokensCanceledCounter + 1 = _
      dsimp only [marketItemsList]
      have hcount := countP_scanRange_update (fun it => it.canceled)
        s.marketItemIdToMarketItem
        { s.marketItemIdToMarketItem mid with owner := caller, canceled := true } hlo hhi
      simp [hcanceled] at hcount
      rw [hInv.canceled_eq]
      dsimp only [marketItemsList]
      omega

/-- Every reachable state satisfies the invariant. -/
theorem reachable_inv {sender : Nat} {s : MarketplaceState}
    (h : Reachable sender s) : Inv s := by
  induction h with
  | refl => exact inv_initial sender
  | tail hab hbc ih => exact inv_step ih hbc

/-- Under the invariant, `fetchAvailableMarketItems` neither underflows nor
overruns its fixed-size array: it returns exactly the zero-owner rows, and
their number is the counter difference. -/
theorem fetchAvailable_of_inv {s : MarketplaceState} (hInv : Inv s) :
    fetchAvailableMarketItems s
        = some ((marketItemsList s).filter fun item => item.owner == 0) ∧
      ((marketItemsList s).filter fun item => item.owner == 0).length
        = s.marketItemIdCounter - s.tokensSoldCounter - s.tokensCanceledCounter := by
  have hpt : ∀ it ∈ marketItemsList s,
      (it.owner = 0 ↔ (it.sold = false ∧ it.canceled = false)) := by
    intro it hit
    obtain ⟨i, h1, h2, rfl⟩ := mem_marketItemsList.mp hit
    exact hInv.owner_flags i h1 h2
  have hnb : ∀ it ∈ marketItemsList s, ¬(it.sold = true ∧ it.canceled = true) := by
    intro it hit
    obtain ⟨i, h1, h2, rfl⟩ := mem_marketItemsList.mp hit
    exact hInv.not_both i h1 h2
  have hsplit := countP_avail (marketItemsList s) hpt hnb
  have hlen : (marketItemsList s).length = s.marketItemIdCounter := length_scanRange _ _
  have hflen : ((marketItemsList s).filter fun item => item.owner == 0).length
      = (marketItemsList s).countP fun item => item.owner == 0 :=
    (List.countP_eq_length_filter _ _).symm
  have hsold := hInv.sold_eq
  have hcanc := hInv.canceled_eq
  constructor
  · simp only [fetchAvailableMarketItems]
    rw [if_neg (by omega), if_neg (by omega)]
    have hz : s.marketItemIdCounter - s.tokensSoldCounter - s.tokensCanceledCounter
        - ((marketItemsList s).filter fun item => item.owner == 0).length = 0 := by
      omega
    rw [hz]
    simp
  · omega

/-- A valid operation never decreases the item counter and never clears a
sold or canceled flag. -/
theorem validStep_mono {s s' : MarketplaceState} (hInv : Inv s) (hstep : ValidStep s s') :
    s.marketItemIdCounter ≤ s'.marketItemIdCounter
    ∧ ∀ i, ((s.marketItemIdToMarketItem i).sold = true →
              (s'.marketItemIdToMarketItem i).sold = true)
        ∧ ((s.marketItemIdToMarketItem i).canceled = true →
              (s'.marketItemIdToMarketItem i).canceled = true) := by
  cases hstep with
  | create caller nft tokenId price creator ret calls hcaller h =>
    obtain ⟨h0, -, creator2, -, -, -, hs', -⟩ := createMarketItem_ok h
    subst hs'
    refine ⟨by dsimp only; omega, ?_⟩
    intro i
    constructor <;> intro hfl <;> dsimp only at hfl ⊢ <;>
      by_cases hik : i = s.marketItemIdCounter + 1
    · rw [hInv.out_empty i (by omega)] at hfl
      simp [emptyMarketItem] at hfl
    · rw [Function.update_noteq hik]
      exact hfl
    · rw [hInv.out_empty i (by omega)] at hfl
      simp [emptyMarketItem] at hfl
    · rw [Function.update_noteq hik]
      exact hfl
  | sale caller msgValue nft mid calls hcaller hlo hhi hsold hcanceled h =>
    obtain ⟨hv, hs', -⟩ := createMarketSale_ok h
    subst hs'
    refine ⟨by dsimp only; omega, ?_⟩
    intro i
    constructor <;> intro hfl <;> dsimp only at hfl ⊢ <;>
      by_cases hik : i = mid
    · subst hik
      rw [Function.update_same]
    · rw [Function.update_noteq hik]
      exact hfl
    · subst hik
      rw [Function.update_same]
      exact hfl
    · rw [Function.update_noteq hik]
      exact hfl
  | cancel caller nft mid calls hcaller hlo hhi hsold hcanceled h =>
    obtain ⟨-, hseller, hs', -⟩ := cancelMarketItem_ok h
    subst hs'
    refine ⟨by dsimp only; omega, ?_⟩
    intro i
    constructor <;> intro hfl <;> dsimp only at hfl ⊢ <;>
      by_cases hik : i = mid
    · subst hik
      rw [Function.update_same]
      exact hfl
    · rw [Function.update_noteq hik]
      exact hfl
    · subst hik
      rw [Function.update_same]
    · rw [Function.update_noteq hik]
      exact hfl

/-- A `cancelMarketItem` call reverts exactly when the existence probe or
the seller check fails. -/
theorem cancelMarketItem_error_iff (s : MarketplaceState)
    (caller nftContractAddress marketItemId : Nat) :
    (∃ e, cancelMarketItem s caller nftContractAddress marketItemId
            = Except.error e)
      ↔ ((s.marketItemIdToMarketItem marketItemId).tokenId = 0 ∨
          (s.marketItemIdToMarketItem marketItemId).seller ≠ caller) := by
  by_cases h0 : (s.marketItemIdToMarketItem marketItemId).tokenId = 0
  · simp [cancelMarketItem, h0]
  · by_cases h1 : (s.marketItemIdToMarketItem marketItemId).seller = caller <;>
      simp [cancelMarketItem, h0, h1]

/-- Under the invariant, the zero-owner rows are exactly counted by the
counter difference. -/
theorem inv_counts {s : MarketplaceState} (hInv : Inv s) :
    ((marketItemsList s).filter fun item => item.owner == 0).length
        + (s.tokensSoldCounter + s.tokensCanceledCounter) = s.marketItemIdCounter := by
  have hpt : ∀ it ∈ marketItemsList s,
      (it.owner = 0 ↔ (it.sold = false ∧ it.canceled = false)) := by
    intro it hit
    obtain ⟨i, h1, h2, rfl⟩ := mem_marketItemsList.mp hit
    exact hInv.owner_flags i h1 h2
  have hnb : ∀ it ∈ marketItemsList s, ¬(it.sold = true ∧ it.canceled = true) := by
    intro it hit
    obtain ⟨i, h1, h2, rfl⟩ := mem_marketItemsList.mp hit
    exact hInv.not_both i h1 h2
  have hsplit := countP_avail (marketItemsList s) hpt hnb
  have hlen : (marketItemsList s).length = s.marketItemIdCounter := length_scanRange _ _
  have hflen : ((marketItemsList s).filter fun item => item.owner == 0).length
      = (marketItemsList s).countP fun item => item.owner == 0 :=
    (List.countP_eq_length_filter _ _).symm
  have hsold := hInv.sold_eq
  have hcanc := hInv.canceled_eq
  omega

/-- The query `fetchAvailableMarketItems` reverts when the subtraction underflows or
the matches overrun the allocated array. -/
theorem fetchAvailable_none_of_overflow {s : MarketplaceState}
    (h : s.marketItemIdCounter - s.tokensSoldCounter - s.tokensCanceledCounter
            < ((marketItemsList s).filter fun item => item.owner == 0).length
        ∨ s.marketItemIdCounter < s.tokensSoldCounter + s.tokensCanceledCounter) :
    fetchAvailableMarketItems s = none := by
  simp only [fetchAvailableMarketItems]
  rcases h with h | h
  · by_cases h1 : s.marketItemIdCounter < s.tokensSoldCounter + s.tokensCanceledCounter
    · rw [if_pos h1]
    · rw [if_neg h1, if_pos h]
  · rw [if_pos h]

/-- Under the invariant, the table rows are strictly increasing in
`marketItemId`. -/
theorem pairwise_marketItemsList {s : MarketplaceState} (hInv : Inv s) :
    (marketItemsList s).Pairwise fun a b => a.marketItemId < b.marketItemId := by
  rw [marketItemsList, scanRange, List.pairwise_map, List.pairwise_iff_getElem]
  intro i j hi hj hij
  rw [List.getElem_range, List.getElem_range]
  have hi2 : i < s.marketItemIdCounter := by simpa using hi
  have hj2 : j < s.marketItemIdCounter := by simpa using hj
  rw [hInv.id_eq (i + 1) (by omega) (by omega),
    hInv.id_eq (j + 1) (by omega) (by omega)]
  omega

/-- If no slot in `1 … n` matches the token id, the descending scan misses. -/
theorem latestScan_not_found (f : Nat → MarketItem) (t n : Nat)
    (h : ∀ i, 1 ≤ i → i ≤ n → (f i).tokenId ≠ t) :
    latestScan f t n = (emptyMarketItem, false) := by
  induction n with
  | zero => rfl
  | succ n ih =>
    simp only [latestScan]
    rw [if_neg (h (n + 1) (by omega) (by omega))]
    exact ih fun i h1 h2 => h i h1 (by omega)

/-- If slot `j` matches and no higher slot up to `n` does, the descending
scan returns slot `j`. -/
theorem latestScan_found (f : Nat → MarketItem) (t n j : Nat)
    (hj1 : 1 ≤ j) (hj2 : j ≤ n) (hjt : (f j).tokenId = t)
    (habove : ∀ i, j < i → i ≤ n → (f i).tokenId ≠ t) :
    latestScan f t n = (f j, true) := by
  induction n with
  | zero => omega
  | succ n ih =>
    by_cases hjn : j = n + 1
    · subst hjn
      simp only [latestScan]
      rw [if_pos hjt]
    · have hne : (f (n + 1)).tokenId ≠ t := habove (n + 1) (by omega) (by omega)
      simp only [latestScan]
      rw [if_neg hne]
      exact ih (by omega) fun i hi1 hi2 => habove i hi1 (by omega)

/-- Monotonicity along any sequence of valid operations from a reachable
state. -/
theorem reachable_mono {sender : Nat} {s s' : MarketplaceState}
    (hreach : Reachable sender s)
    (hsteps : Relation.ReflTransGen ValidStep s s') :
    s.marketItemIdCounter ≤ s'.marketItemIdCounter
    ∧ ∀ i, ((s.marketItemIdToMarketItem i).sold = true →
              (s'.marketItemIdToMarketItem i).sold = true)
        ∧ ((s.marketItemIdToMarketItem i).canceled = true →
              (s'.marketItemIdToMarketItem i).canceled = true) := by
  induction hsteps with
  | refl => exact ⟨Nat.le_refl _, fun i => ⟨id, id⟩⟩
  | tail hab hbc ih =>
    have hInvb := reachable_inv (hreach.trans hab)
    have hmono := validStep_mono hInvb hbc
    refine ⟨ih.1.trans hmono.1, fun i => ?_⟩
    exact ⟨fun hs => (hmono.2 i).1 ((ih.2 i).1 hs),
           fun hc => (hmono.2 i).2 ((ih.2 i).2 hc)⟩

/-- C1: on every state reached by a sequence of valid operations,
`fetchAvailableMarketItems` succeeds and returns exactly the rows whose
`owner` is the zero address, in ascending `marketItemId` order, and the
length of the result is the created counter minus the sold counter minus
the canceled counter. -/
theorem claim_C1 (sender : Nat) (s : MarketplaceState) (hreach : Reachable sender s) :
    ∃ l, fetchAvailableMarketItems s = some l
      ∧ l.length = s.marketItemIdCounter - s.tokensSoldCounter - s.tokensCanceledCounter
      ∧ (∀ it, it ∈ l ↔
          ((∃ i, 1 ≤ i ∧ i ≤ s.marketItemIdCounter ∧ s.marketItemIdToMarketItem i = it)
            ∧ it.owner = 0))
      ∧ l.Pairwise fun a b => a.marketItemId < b.marketItemId := by
  have hInv := reachable_inv hreach
  obtain ⟨hfetch, hlen⟩ := fetchAvailable_of_inv hInv
  refine ⟨_, hfetch, hlen, ?_, ?_⟩
  · intro it
    rw [List.mem_filter, mem_marketItemsList]
    simp
  · have hpair : (marketItemsList s).Pairwise
        fun a b => a.marketItemId < b.marketItemId := by
      rw [marketItemsList, scanRange, List.pairwise_map, List.pairwise_iff_getElem]
      intro i j hi hj hij
      rw [List.getElem_range, List.getElem_range]
      have hi2 : i < s.marketItemIdCounter := by simpa using hi
      have hj2 : j < s.marketItemIdCounter := by simpa using hj
      rw [hInv.id_eq (i + 1) (by omega) (by omega),
        hInv.id_eq (j + 1) (by omega) (by omega)]
      omega
    exact List.Pairwise.sublist (List.filter_sublist _) hpair

/-- Witness for C1: the reachable one-listing state. -/
theorem claim_C1_witness :
    ∃ l, fetchAvailableMarketItems listedState = some l
      ∧ l.length = listedState.marketItemIdCounter - listedState.tokensSoldCounter
          - listedState.tokensCanceledCounter
      ∧ (∀ it, it ∈ l ↔
          ((∃ i, 1 ≤ i ∧ i ≤ listedState.marketItemIdCounter
              ∧ listedState.marketItemIdToMarketItem i = it)
            ∧ it.owner = 0))
      ∧ l.Pairwise fun a b => a.marketItemId < b.marketItemId :=
  claim_C1 7 listedState reachable_listedState

/-- C8: market item ids are dense and sequential starting at 1, the item
counter never decreases, no stored record is ever deleted, and the sold and
canceled flags only ever change from false to true, across every sequence
of valid operations from a reachable state. -/
theorem claim_C8 (sender : Nat) (s s' : MarketplaceState) (hreach : Reachable sender s)
    (hsteps : Relation.ReflTransGen ValidStep s s') :
    s.marketItemIdCounter ≤ s'.marketItemIdCounter
    ∧ (∀ i, 1 ≤ i → i ≤ s'.marketItemIdCounter →
        (s'.marketItemIdToMarketItem i).marketItemId = i
        ∧ s'.marketItemIdToMarketItem i ≠ emptyMarketItem)
    ∧ (∀ i, s'.marketItemIdCounter < i → s'.marketItemIdToMarketItem i = emptyMarketItem)
    ∧ (∀ i, ((s.marketItemIdToMarketItem i).sold = true →
              (s'.marketItemIdToMarketItem i).sold = true)
          ∧ ((s.marketItemIdToMarketItem i).canceled = true →
              (s'.marketItemIdToMarketItem i).canceled = true)) := by
  have hreach2 : Reachable sender s' := hreach.trans hsteps
  have hInv2 := reachable_inv hreach2
  have hmono := reachable_mono hreach hsteps
  refine ⟨hmono.1, ?_, hInv2.out_empty, hmono.2⟩
  intro i h1 h2
  refine ⟨hInv2.id_eq i h1 h2, ?_⟩
  intro hemp
  have hid := hInv2.id_eq i h1 h2
  rw [hemp] at hid
  simp [emptyMarketItem] at hid
  omega

/-- Witness for C8: the single valid step from a fresh deployment to the
one-listing state. -/
theorem claim_C8_witness :
    (initialState 7).marketItemIdCounter ≤ listedState.marketItemIdCounter
    ∧ (∀ i, 1 ≤ i → i ≤ listedState.marketItemIdCounter →
        (listedState.marketItemIdToMarketItem i).marketItemId = i
        ∧ listedState.marketItemIdToMarketItem i ≠ emptyMarketItem)
    ∧ (∀ i, listedState.marketItemIdCounter < i →
        listedState.marketItemIdToMarketItem i = emptyMarketItem)
    ∧ (∀ i, (((initialState 7).marketItemIdToMarketItem i).sold = true →
              (listedState.marketItemIdToMarketItem i).sold = true)
          ∧ (((initialState 7).marketItemIdToMarketItem i).canceled = true →
              (listedState.marketItemIdToMarketItem i).canceled = true)) :=
  claim_C8 7 (initialState 7) listedState Relation.ReflTransGen.refl reachable_listedState

/-- C2: `createMarketSale` rejects, with no state change since a revert
carries no state, exactly when the attached payment differs from the stored
price of the given item id; it checks neither the sold or canceled flag nor
the caller, so a second sale of an already sold item at the stored price
succeeds at the ledger level and pays the stored seller again. -/
theorem claim_C2 (s : MarketplaceState)
    (caller msgValue nftContractAddress marketItemId : Nat) :
    ((∃ e, createMarketSale s caller msgValue nftContractAddress marketItemId
            = Except.error e)
        ↔ msgValue ≠ (s.marketItemIdToMarketItem marketItemId).price)
    ∧ ((s.marketItemIdToMarketItem marketItemId).sold = true →
        msgValue = (s.marketItemIdToMarketItem marketItemId).price →
        createMarketSale s caller msgValue nftContractAddress marketItemId =
          Except.ok
            ({ s with
                marketItemIdToMarketItem :=
                  Function.update s.marketItemIdToMarketItem marketItemId
                    { s.marketItemIdToMarketItem marketItemId with
                        owner := caller, sold := true }
                tokensSoldCounter := s.tokensSoldCounter + 1 },
             [ExternalCall.ethTransfer
                (s.marketItemIdToMarketItem marketItemId).seller msgValue,
              ExternalCall.nftTransferFromMarket nftContractAddress
                (s.marketItemIdToMarketItem marketItemId).tokenId caller,
              ExternalCall.ethTransfer s.owner s.listingFee])) :=
  ⟨createMarketSale_error_iff s caller msgValue nftContractAddress marketItemId,
   fun _ hv => createMarketSale_eq_ok s caller msgValue nftContractAddress marketItemId hv⟩

/-- Witness for C2: reselling the already sold item 1 of `soldState` at its
price 100 succeeds and pays seller 5 again. -/
theorem claim_C2_witness :
    createMarketSale soldState 9 100 2 1 =
      Except.ok
        ({ soldState with
            marketItemIdToMarketItem :=
              Function.update soldState.marketItemIdToMarketItem 1
                { soldState.marketItemIdToMarketItem 1 with owner := 9, sold := true }
            tokensSoldCounter := soldState.tokensSoldCounter + 1 },
         [ExternalCall.ethTransfer (soldState.marketItemIdToMarketItem 1).seller 100,
          ExternalCall.nftTransferFromMarket 2
            (soldState.marketItemIdToMarketItem 1).tokenId 9,
          ExternalCall.ethTransfer soldState.owner soldState.listingFee]) :=
  (claim_C2 soldState 9 100 2 1).2 (by rfl) (by rfl)

/-- C3: a `createMarketItem` call paying exactly the listing fee with a
positive price and a cooperating collection returns the previous maximum id
plus one and stores a record with seller = caller, owner = 0, sold = false,
canceled = false and the given price. -/
theorem claim_C3 (s : MarketplaceState)
    (caller nftContractAddress tokenId price creator : Nat) (hprice : 0 < price) :
    ∃ s' calls,
      createMarketItem s caller s.listingFee nftContractAddress tokenId price
          (some creator) true = Except.ok (s', s.marketItemIdCounter + 1, calls)
      ∧ s'.marketItemIdToMarketItem (s.marketItemIdCounter + 1)
          = ⟨s.marketItemIdCounter + 1, nftContractAddress, tokenId, creator, caller, 0,
             price, false, false⟩
      ∧ s'.marketItemIdCounter = s.marketItemIdCounter + 1 := by
  have h := createMarketItem_eq_ok s caller nftContractAddress tokenId price creator
    (by omega)
  refine ⟨_, _, h, ?_, rfl⟩
  dsimp only
  rw [Function.update_same]

/-- Witness for C3: listing token 3 on the fresh deployment gives id 1. -/
theorem claim_C3_witness :
    ∃ s' calls,
      createMarketItem (initialState 7) 5 (initialState 7).listingFee 2 3 100
          (some 4) true = Except.ok (s', (initialState 7).marketItemIdCounter + 1, calls)
      ∧ s'.marketItemIdToMarketItem ((initialState 7).marketItemIdCounter + 1)
          = ⟨(initialState 7).marketItemIdCounter + 1, 2, 3, 4, 5, 0, 100, false, false⟩
      ∧ s'.marketItemIdCounter = (initialState 7).marketItemIdCounter + 1 :=
  claim_C3 (initialState 7) 5 2 3 100 4 (by decide)

/-- C4: a `createMarketItem` call whose payment differs from the listing fee
or whose price is zero reverts; the revert carries no state, so the counter
and the whole ledger are unchanged. -/
theorem claim_C4 (s : MarketplaceState)
    (caller msgValue nftContractAddress tokenId price : Nat)
    (creatorLookup : Option Nat) (nftTransferOk : Bool)
    (h : msgValue ≠ s.listingFee ∨ price = 0) :
    ∃ e, createMarketItem s caller msgValue nftContractAddress tokenId price
          creatorLookup nftTransferOk = Except.error e := by
  by_cases h0 : price = 0
  · exact ⟨"Price must be at least 1 wei", by simp [createMarketItem, h0]⟩
  · rcases h with h | h
    · exact ⟨"Price must be equal to listing price", by simp [createMarketItem, h0, h]⟩
    · exact absurd h h0

/-- Witness for C4: zero payment on the fresh deployment is rejected. -/
theorem claim_C4_witness :
    ∃ e, createMarketItem (initialState 7) 5 0 2 3 100 (some 4) true
          = Except.error e :=
  claim_C4 (initialState 7) 5 0 2 3 100 (some 4) true (Or.inl (by decide))

/-- C5: a `createMarketSale` whose payment equals the stored price succeeds,
sets owner to the buyer and sold to true, increments the sold counter by
one, pays the stored seller exactly the price and the fee beneficiary
exactly the listing fee. -/
theorem claim_C5 (s : MarketplaceState)
    (caller msgValue nftContractAddress marketItemId : Nat)
    (hv : msgValue = (s.marketItemIdToMarketItem marketItemId).price) :
    createMarketSale s caller msgValue nftContractAddress marketItemId =
      Except.ok
        ({ s with
            marketItemIdToMarketItem :=
              Function.update s.marketItemIdToMarketItem marketItemId
                { s.marketItemIdToMarketItem marketItemId with
                    owner := caller, sold := true }
            tokensSoldCounter := s.tokensSoldCounter + 1 },
         [ExternalCall.ethTransfer
            (s.marketItemIdToMarketItem marketItemId).seller msgValue,
          ExternalCall.nftTransferFromMarket nftContractAddress
            (s.marketItemIdToMarketItem marketItemId).tokenId caller,
          ExternalCall.ethTransfer s.owner s.listingFee]) :=
  createMarketSale_eq_ok s caller msgValue nftContractAddress marketItemId hv

/-- Witness for C5: buyer 6 buys item 1 of `listedState` for 100. -/
theorem claim_C5_witness :
    createMarketSale listedState 6 100 2 1 =
      Except.ok
        ({ listedState with
            marketItemIdToMarketItem :=
              Function.update listedState.marketItemIdToMarketItem 1
                { listedState.marketItemIdToMarketItem 1 with owner := 6, sold := true }
            tokensSoldCounter := listedState.tokensSoldCounter + 1 },
         [ExternalCall.ethTransfer (listedState.marketItemIdToMarketItem 1).seller 100,
          ExternalCall.nftTransferFromMarket 2
            (listedState.marketItemIdToMarketItem 1).tokenId 6,
          ExternalCall.ethTransfer listedState.owner listedState.listingFee]) :=
  claim_C5 listedState 6 100 2 1 (by rfl)

/-- C7: for every token id, `getLatestMarketItemByTokenId` returns the
stored row with the highest id among those with that token id, with a true
flag, or the empty record with a false flag when no row matches. -/
theorem claim_C7 (s : MarketplaceState) (tokenId : Nat) :
    ((∀ i, 1 ≤ i → i ≤ s.marketItemIdCounter →
        (s.marketItemIdToMarketItem i).tokenId ≠ tokenId) →
      getLatestMarketItemByTokenId s tokenId = (emptyMarketItem, false))
    ∧ (∀ j, 1 ≤ j → j ≤ s.marketItemIdCounter →
        (s.marketItemIdToMarketItem j).tokenId = tokenId →
        (∀ i, j < i → i ≤ s.marketItemIdCounter →
          (s.marketItemIdToMarketItem i).tokenId ≠ tokenId) →
        getLatestMarketItemByTokenId s tokenId = (s.marketItemIdToMarketItem j, true)) :=
  ⟨fun h => latestScan_not_found _ _ _ h,
   fun j h1 h2 h3 h4 => latestScan_found _ _ _ j h1 h2 h3 h4⟩

/-- Witness for C7: token 3 is found at its unique listing and token 99 is
not found in `listedState`. -/
theorem claim_C7_witness :
    getLatestMarketItemByTokenId listedState 3
        = (listedState.marketItemIdToMarketItem 1, true)
    ∧ getLatestMarketItemByTokenId listedState 99 = (emptyMarketItem, false) :=
  ⟨(claim_C7 listedState 3).2 1 (by decide) (by decide) (by decide)
      (fun i hi1 hi2 => by
        simp only [listedState] at hi2
        omega),
   (claim_C7 listedState 99).1
      (fun i h1 h2 => by
        simp only [listedState] at h2
        have hi : i = 1 := by omega
        subst hi
        decide)⟩

/-- C10: `createMarketSale` makes no existence check: from any reachable
state, a never-allocated id has stored price zero, so a zero-payment call
succeeds, marks the phantom row sold with owner = caller and increments the
sold counter, after which created minus sold minus canceled no longer
equals the number of zero-owner rows of the table. -/
theorem claim_C10 (sender : Nat) (s : MarketplaceState) (hreach : Reachable sender s)
    (caller nftContractAddress marketItemId : Nat)
    (hid : s.marketItemIdCounter < marketItemId) (hcaller : caller ≠ 0) :
    (s.marketItemIdToMarketItem marketItemId).price = 0
    ∧ ∃ s' calls,
        createMarketSale s caller 0 nftContractAddress marketItemId
            = Except.ok (s', calls)
        ∧ (s'.marketItemIdToMarketItem marketItemId).sold = true
        ∧ (s'.marketItemIdToMarketItem marketItemId).owner = caller
        ∧ s'.tokensSoldCounter = s.tokensSoldCounter + 1
        ∧ s'.marketItemIdCounter = s.marketItemIdCounter
        ∧ ((s'.marketItemIdCounter : Int) - s'.tokensSoldCounter - s'.tokensCanceledCounter
            ≠ ((marketItemsList s').filter fun item => item.owner == 0).length) := by
  have hInv := reachable_inv hreach
  have hempty : s.marketItemIdToMarketItem marketItemId = emptyMarketItem :=
    hInv.out_empty marketItemId hid
  have hprice : (s.marketItemIdToMarketItem marketItemId).price = 0 := by
    rw [hempty]
    rfl
  have h := createMarketSale_eq_ok s caller 0 nftContractAddress marketItemId
    hprice.symm
  refine ⟨hprice, _, _, h, ?_, ?_, rfl, rfl, ?_⟩
  · dsimp only
    rw [Function.update_same]
  · dsimp only
    rw [Function.update_same]
  · have hlist : marketItemsList
        { s with
            marketItemIdToMarketItem :=
              Function.update s.marketItemIdToMarketItem marketItemId
                { s.marketItemIdToMarketItem marketItemId with
                    owner := caller, sold := true }
            tokensSoldCounter := s.tokensSoldCounter + 1 } = marketItemsList s := by
      dsimp only [marketItemsList]
      exact scanRange_update_of_lt _ _ hid
    rw [hlist]
    have hc := inv_counts hInv
    dsimp only
    omega

/-- Witness for C10: a zero-payment sale of the never-allocated id 1 on the
fresh deployment. -/
theorem claim_C10_witness :
    ((initialState 7).marketItemIdToMarketItem 1).price = 0
    ∧ ∃ s' calls,
        createMarketSale (initialState 7) 9 0 2 1 = Except.ok (s', calls)
        ∧ (s'.marketItemIdToMarketItem 1).sold = true
        ∧ (s'.marketItemIdToMarketItem 1).owner = 9
        ∧ s'.tokensSoldCounter = (initialState 7).tokensSoldCounter + 1
        ∧ s'.marketItemIdCounter = (initialState 7).marketItemIdCounter
        ∧ ((s'.marketItemIdCounter : Int) - s'.tokensSoldCounter - s'.tokensCanceledCounter
            ≠ ((marketItemsList s').filter fun item => item.owner == 0).length) :=
  claim_C10 7 (initialState 7) Relation.ReflTransGen.refl 9 2 1 (by decide) (by decide)

/-- C6: `cancelMarketItem` rejects exactly when the stored tokenId of the id
is zero (the existence probe) or the caller is not the stored seller; on
success it sets owner to the caller, canceled to true, increments the
canceled counter by one and returns token custody to the seller, and any
subsequent successful `fetchAvailableMarketItems` no longer lists that id. -/
theorem claim_C6 (sender : Nat) (s : MarketplaceState)
    (caller nftContractAddress marketItemId : Nat) :
    ((∃ e, cancelMarketItem s caller nftContractAddress marketItemId = Except.error e)
        ↔ ((s.marketItemIdToMarketItem marketItemId).tokenId = 0
            ∨ (s.marketItemIdToMarketItem marketItemId).seller ≠ caller))
    ∧ ((s.marketItemIdToMarketItem marketItemId).tokenId ≠ 0 →
        (s.marketItemIdToMarketItem marketItemId).seller = caller →
        cancelMarketItem s caller nftContractAddress marketItemId =
          Except.ok
            ({ s with
                marketItemIdToMarketItem :=
                  Function.update s.marketItemIdToMarketItem marketItemId
                    { s.marketItemIdToMarketItem marketItemId with
                        owner := caller, canceled := true }
                tokensCanceledCounter := s.tokensCanceledCounter + 1 },
             [ExternalCall.nftTransferFromMarket nftContractAddress
                (s.marketItemIdToMarketItem marketItemId).tokenId caller]))
    ∧ (Reachable sender s → caller ≠ 0 →
        ∀ s' calls,
          cancelMarketItem s caller nftContractAddress marketItemId
              = Except.ok (s', calls) →
          (s'.marketItemIdToMarketItem marketItemId).owner = caller
          ∧ (s'.marketItemIdToMarketItem marketItemId).canceled = true
          ∧ s'.tokensCanceledCounter = s.tokensCanceledCounter + 1
          ∧ calls = [ExternalCall.nftTransferFromMarket nftContractAddress
              (s.marketItemIdToMarketItem marketItemId).tokenId caller]
          ∧ ∀ l, fetchAvailableMarketItems s' = some l →
              ∀ it ∈ l, it.marketItemId ≠ marketItemId) := by
  refine ⟨cancelMarketItem_error_iff s caller nftContractAddress marketItemId,
    fun h0 h1 => cancelMarketItem_eq_ok s caller nftContractAddress marketItemId h0 h1,
    ?_⟩
  intro hreach hcaller s' calls hok
  have hInv := reachable_inv hreach
  obtain ⟨htok, hsell, hs', hcalls⟩ := cancelMarketItem_ok hok
  subst hs'
  have hlo : 1 ≤ marketItemId := by
    by_contra hc
    have h0 : marketItemId = 0 := by omega
    rw [h0, hInv.zero_empty] at htok
    exact htok rfl
  have hhi : marketItemId ≤ s.marketItemIdCounter := by
    by_contra hc
    rw [hInv.out_empty marketItemId (by omega)] at htok
    exact htok rfl
  refine ⟨?_, ?_, rfl, hcalls, ?_⟩
  · dsimp only
    rw [Function.update_same]
  · dsimp only
    rw [Function.update_same]
  · intro l hl it hit
    by_cases hterm : (s.marketItemIdToMarketItem marketItemId).sold = false
        ∧ (s.marketItemIdToMarketItem marketItemId).canceled = false
    · have hstep : ValidStep s _ :=
        ValidStep.cancel caller nftContractAddress marketItemId calls hcaller hlo hhi
          hterm.1 hterm.2 hok
      have hInv2 := inv_step hInv hstep
      obtain ⟨hf, -⟩ := fetchAvailable_of_inv hInv2
      rw [hf] at hl
      obtain rfl := Option.some_inj.mp hl
      rw [List.mem_filter, mem_marketItemsList] at hit
      obtain ⟨⟨j, hj1, hj2, hji⟩, howner⟩ := hit
      intro heq
      have hj := hInv2.id_eq j hj1 hj2
      rw [hji] at hj
      have hjm : j = marketItemId := by omega
      subst hjm
      dsimp only at hji
      rw [Function.update_same] at hji
      rw [← hji] at howner
      simp at howner
      exact hcaller howner
    · have howner0 : (s.marketItemIdToMarketItem marketItemId).owner ≠ 0 := by
        intro ho
        exact hterm ((hInv.owner_flags marketItemId hlo hhi).mp ho)
      have hnone : fetchAvailableMarketItems
          ({ s with
              marketItemIdToMarketItem :=
                Function.update s.marketItemIdToMarketItem marketItemId
                  { s.marketItemIdToMarketItem marketItemId with
                      owner := caller, canceled := true }
              tokensCanceledCounter := s.tokensCanceledCounter + 1 }) = none := by
        apply fetchAvailable_none_of_overflow
        have hcount := countP_scanRange_update (fun item => item.owner == 0)
          s.marketItemIdToMarketItem
          { s.marketItemIdToMarketItem marketItemId with
              owner := caller, canceled := true } hlo hhi
        have e1 : ((s.marketItemIdToMarketItem marketItemId).owner == 0) = false := by
          simp [howner0]
        have e2 : (({ s.marketItemIdToMarketItem marketItemId with
            owner := caller, canceled := true } : MarketItem).owner == 0) = false := by
          simp [hcaller]
        simp only [e1, e2, Bool.false_eq_true, if_false, Nat.add_zero] at hcount
        have hc := inv_counts hInv
        dsimp only [marketItemsList] at hc ⊢
        rw [← List.countP_eq_length_filter] at hc ⊢
        omega
      rw [hnone] at hl
      simp at hl

/-- Witness for C6: seller 5 cancels item 1 of `listedState`; afterwards no
returned available row carries id 1. -/
theorem claim_C6_witness :
    (cancelMarketItem listedState 5 2 1 =
      Except.ok
        ({ listedState with
            marketItemIdToMarketItem :=
              Function.update listedState.marketItemIdToMarketItem 1
                { listedState.marketItemIdToMarketItem 1 with
                    owner := 5, canceled := true }
            tokensCanceledCounter := listedState.tokensCanceledCounter + 1 },
         [ExternalCall.nftTransferFromMarket 2
            (listedState.marketItemIdToMarketItem 1).tokenId 5]))
    ∧ (∀ s' calls, cancelMarketItem listedState 5 2 1 = Except.ok (s', calls) →
        ∀ l, fetchAvailableMarketItems s' = some l →
          ∀ it ∈ l, it.marketItemId ≠ 1) :=
  ⟨(claim_C6 7 listedState 5 2 1).2.1 (by decide) (by rfl),
   fun s' calls hok =>
     ((claim_C6 7 listedState 5 2 1).2.2 reachable_listedState (by decide)
        s' calls hok).2.2.2.2⟩

/-- C9: `fetchMarketItemsByAddressProperty` rejects every property string
other than "seller" and "owner"; otherwise its first pass counts the rows
whose chosen field equals the caller, and it returns exactly those rows in
ascending id order in an array of exactly that size. -/
theorem claim_C9 (sender : Nat) (s : MarketplaceState) (caller : Nat) (p : String) :
    (p ≠ "seller" → p ≠ "owner" →
      ∃ e, fetchMarketItemsByAddressProperty s caller p = Except.error e)
    ∧ fetchMarketItemsByAddressProperty s caller "seller"
        = Except.ok ((marketItemsList s).filter fun item => item.seller == caller)
    ∧ fetchMarketItemsByAddressProperty s caller "owner"
        = Except.ok ((marketItemsList s).filter fun item => item.owner == caller)
    ∧ (∀ it, it ∈ (marketItemsList s).filter (fun item => item.seller == caller) ↔
        ((∃ i, 1 ≤ i ∧ i ≤ s.marketItemIdCounter ∧ s.marketItemIdToMarketItem i = it)
          ∧ it.seller = caller))
    ∧ ((marketItemsList s).filter fun item => item.seller == caller).length
        = ((marketItemsList s).countP fun item => item.seller == caller)
    ∧ (Reachable sender s →
        (((marketItemsList s).filter fun item => item.seller == caller).Pairwise
            fun a b => a.marketItemId < b.marketItemId)
        ∧ (((marketItemsList s).filter fun item => item.owner == caller).Pairwise
            fun a b => a.marketItemId < b.marketItemId)) := by
  refine ⟨?_, ?_, ?_, ?_, (List.countP_eq_length_filter _ _).symm, ?_⟩
  · intro hp1 hp2
    have c1 : compareStrings p "seller" = false := by
      simp [compareStrings, hp1]
    have c2 : compareStrings p "owner" = false := by
      simp [compareStrings, hp2]
    exact ⟨"Parameter must be seller or owner",
      by simp [fetchMarketItemsByAddressProperty, c1, c2]⟩
  · have hss : compareStrings "seller" "seller" = true := by decide
    have hso : compareStrings "seller" "owner" = false := by decide
    simp [fetchMarketItemsByAddressProperty, hss, hso, List.countP_eq_length_filter]
  · have hos : compareStrings "owner" "seller" = false := by decide
    have hoo : compareStrings "owner" "owner" = true := by decide
    simp [fetchMarketItemsByAddressProperty, hos, hoo, List.countP_eq_length_filter]
  · intro it
    rw [List.mem_filter, mem_marketItemsList]
    simp
  · intro hreach
    have hInv := reachable_inv hreach
    have hpair := pairwise_marketItemsList hInv
    exact ⟨List.Pairwise.sublist (List.filter_sublist _) hpair,
           List.Pairwise.sublist (List.filter_sublist _) hpair⟩

/-- Witness for C9: the invalid property "x" is rejected on `listedState`,
the "seller" query returns the seller-5 rows, and they are id-sorted. -/
theorem claim_C9_witness :
    (∃ e, fetchMarketItemsByAddressProperty listedState 5 "x" = Except.error e)
    ∧ fetchMarketItemsByAddressProperty listedState 5 "seller"
        = Except.ok ((marketItemsList listedState).filter fun item => item.seller == 5)
    ∧ (((marketItemsList listedState).filter fun item => item.seller == 5).Pairwise
          fun a b => a.marketItemId < b.marketItemId) :=
  ⟨(claim_C9 7 listedState 5 "x").1 (by decide) (by decide),
   (claim_C9 7 listedState 5 "x").2.1,
   ((claim_C9 7 listedState 5 "x").2.2.2.2.2 reachable_listedState).1⟩

end Marketplace
